import Mathlib

set_option maxHeartbeats 1000000
set_option maxRecDepth 8000

namespace FlightAggregator

/-- Dynamic values as manipulated by the source: the raw provider payload is a
loosely-typed nested mapping (dicts, lists, strings, numbers, booleans, None). -/
inductive PyVal where
  | pyNone
  | pyBool (b : Bool)
  | pyInt (n : Int)
  | pyStr (s : String)
  | pyList (items : List PyVal)
  | pyDict (entries : List (String × PyVal))

/-- Key lookup in a dict's entry list (first matching key, as in a Python dict). -/
def lookupField : List (String × PyVal) → String → Option PyVal
  | [], _ => Option.none
  | (k, v) :: rest, key => if k = key then some v else lookupField rest key

/-- Models the Python expression v.get(key, dflt): on a dict it returns the stored
value or the default, on any other value attribute access raises AttributeError. -/
def dictGetD : PyVal → String → PyVal → Except String PyVal
  | .pyDict entries, key, dflt => .ok ((lookupField entries key).getD dflt)
  | _, _, _ => .error "AttributeError"

/-- Models v.get(key), whose implicit default is None. -/
def dictGet (v : PyVal) (key : String) : Except String PyVal :=
  dictGetD v key .pyNone

/-- Models iterating a value with a for-loop; the source only ever iterates lists. -/
def asList : PyVal → Except String (List PyVal)
  | .pyList items => .ok items
  | _ => .error "TypeError"

/-- Left-to-right effectful map over Except: the first failure aborts the whole
traversal, exactly as the first raised exception aborts a Python loop. -/
def mapE (f : α → Except String β) : List α → Except String (List β)
  | [] => .ok []
  | x :: xs =>
    match f x with
    | .error e => .error e
    | .ok y =>
      match mapE f xs with
      | .error e => .error e
      | .ok ys => .ok (y :: ys)

/-- A Python float, i.e. an IEEE-754 binary64 double.  Every finite double is
an exact integer multiple of 2 ^ (-1074); units is that multiple, so
value-level comparison of finite doubles is plain integer comparison.  inf,
neginf and nan are the non-finite doubles float() can produce. -/
inductive FVal where
  | finite (units : Int)
  | inf
  | neginf
  | nan
  deriving DecidableEq

/-- Bit length of a natural number, with explicit fuel to stay structural. -/
def bitLenAux : Nat → Nat → Nat
  | 0, _ => 0
  | fuel + 1, n => if n = 0 then 0 else bitLenAux fuel (n / 2) + 1

/-- Bit length: 0 for 0, otherwise one more than the floor of log2. -/
def bitLen (n : Nat) : Nat := bitLenAux n n

/-- Floor of log2 (a / b) for positive a and b, via bit lengths with a
one-step correction. -/
def floorLog2Frac (a b : Nat) : Int :=
  let e0 : Int := (bitLen a : Int) - (bitLen b : Int)
  if 0 ≤ e0 then
    if b * 2 ^ e0.toNat ≤ a then e0 else e0 - 1
  else
    if b ≤ a * 2 ^ (-e0).toNat then e0 else e0 - 1

/-- Round A / B (for positive B) to the nearest integer, ties to even. -/
def rndHalfEven (A B : Nat) : Nat :=
  let s0 := A / B
  let r := A % B
  if 2 * r < B then s0
  else if B < 2 * r then s0 + 1
  else if s0 % 2 = 0 then s0 else s0 + 1

/-- Round the positive value m * 10 ^ d to the nearest binary64 double
(round-to-nearest, ties-to-even, with gradual underflow), returned as units of
2 ^ (-1074); Option.none means overflow to infinity. -/
def roundPosToUnits (m : Nat) (d : Int) : Option Nat :=
  let a := if 0 ≤ d then m * 10 ^ d.toNat else m
  let b := if 0 ≤ d then 1 else 10 ^ (-d).toNat
  let e := floorLog2Frac a b
  let q : Int := if e < -1022 then -1074 else e - 52
  let shift : Int := -q
  let A := if 0 ≤ shift then a * 2 ^ shift.toNat else a
  let B := if 0 ≤ shift then b else b * 2 ^ (-shift).toNat
  let s := rndHalfEven A B
  let u := s * 2 ^ (q + 1074).toNat
  if u < 2 ^ 2098 then some u else Option.none

/-- The double denoted by the decimal value (-1) ^ neg * m * 10 ^ d. -/
def mkFloat (neg : Bool) (m : Nat) (d : Int) : FVal :=
  if m = 0 then .finite 0
  else
    match roundPosToUnits m d with
    | some u => .finite (if neg then -(u : Int) else (u : Int))
    | Option.none => if neg then .neginf else .inf

/-- Python's <= on doubles: nan compares false against everything, including
itself. -/
def fBle : FVal → FVal → Bool
  | .nan, _ => false
  | _, .nan => false
  | .neginf, _ => true
  | _, .neginf => false
  | .finite a, .finite b => decide (a ≤ b)
  | _, .inf => true
  | .inf, _ => false

/-- Python's < on doubles. -/
def fBlt : FVal → FVal → Bool
  | .nan, _ => false
  | _, .nan => false
  | .neginf, .neginf => false
  | .neginf, _ => true
  | _, .neginf => false
  | .finite a, .finite b => decide (a < b)
  | .inf, _ => false
  | _, .inf => true

/-- Python's == on doubles: nan is not equal even to itself. -/
def fBeq : FVal → FVal → Bool
  | .nan, _ => false
  | _, .nan => false
  | .neginf, .neginf => true
  | .finite a, .finite b => decide (a = b)
  | .inf, .inf => true
  | _, _ => false

/-- One endpoint of a segment as built by parse_flight_offer: the inner dicts
with keys airport / time / terminal. -/
structure Endpoint where
  airport : PyVal
  time : PyVal
  terminal : PyVal

/-- One flight segment of the parsed offer.  Every key of the source's segment
dict is a field here, so key presence in the output is structural. -/
structure Segment where
  departure : Endpoint
  arrival : Endpoint
  carrier : PyVal
  flight_number : PyVal
  aircraft : PyVal
  duration : PyVal

/-- The price sub-dict of the parsed offer. -/
structure Price where
  total : PyVal
  currency : PyVal

/-- One itinerary of the parsed offer. -/
structure Itinerary where
  duration : PyVal
  segments : List Segment

/-- The canonical parsed offer returned by parse_flight_offer. -/
structure ParsedOffer where
  id : PyVal
  price : Price
  itineraries : List Itinerary

/-- The segment dict built in the body of the inner loop of parse_flight_offer
(source lines 115-130). -/
def parseSegment (segment : PyVal) : Except String Segment := do
  let dep ← dictGetD segment "departure" (.pyDict [])
  let depAirport ← dictGet dep "iataCode"
  let depTime ← dictGet dep "at"
  let depTerminal ← dictGet dep "terminal"
  let arr ← dictGetD segment "arrival" (.pyDict [])
  let arrAirport ← dictGet arr "iataCode"
  let arrTime ← dictGet arr "at"
  let arrTerminal ← dictGet arr "terminal"
  let carrier ← dictGet segment "carrierCode"
  let number ← dictGet segment "number"
  let aircraftObj ← dictGetD segment "aircraft" (.pyDict [])
  let aircraftCode ← dictGet aircraftObj "code"
  let dur ← dictGet segment "duration"
  pure { departure := ⟨depAirport, depTime, depTerminal⟩,
         arrival := ⟨arrAirport, arrTime, arrTerminal⟩,
         carrier := carrier, flight_number := number,
         aircraft := aircraftCode, duration := dur }

/-- The itinerary dict built in the body of the outer loop of parse_flight_offer
(source lines 112-135): walk the segments in provider order, then pair the
itinerary duration with them. -/
def parseItinerary (itinerary : PyVal) : Except String Itinerary := do
  let segsVal ← dictGetD itinerary "segments" (.pyList [])
  let rawSegs ← asList segsVal
  let segs ← mapE parseSegment rawSegs
  let dur ← dictGet itinerary "duration"
  pure { duration := dur, segments := segs }

/-- Translation of FlightAggregator.parse_flight_offer (source lines 93-137):
defensive .get access for id and price, then both loops over
offer.get(itineraries, []). -/
def parse_flight_offer (offer : PyVal) : Except String ParsedOffer := do
  let idVal ← dictGet offer "id"
  let priceObj ← dictGetD offer "price" (.pyDict [])
  let total ← dictGet priceObj "total"
  let currency ← dictGet priceObj "currency"
  let itinsVal ← dictGetD offer "itineraries" (.pyList [])
  let rawItins ← asList itinsVal
  let itins ← mapE parseItinerary rawItins
  pure { id := idVal, price := ⟨total, currency⟩, itineraries := itins }

/-- Is the value a dict? -/
def isDictVal : PyVal → Bool
  | .pyDict _ => true
  | _ => false

/-- The named field, when present, is a dict. -/
def optFieldIsDict (entries : List (String × PyVal)) (key : String) : Bool :=
  match lookupField entries key with
  | Option.none => true
  | some v => isDictVal v

/-- A raw segment value is a nested mapping: a dict whose departure, arrival and
aircraft fields, when present, are dicts (any combination may be missing). -/
def wfSegVal : PyVal → Bool
  | .pyDict es =>
      optFieldIsDict es "departure" && optFieldIsDict es "arrival" &&
        optFieldIsDict es "aircraft"
  | _ => false

/-- A raw itinerary value is a dict whose segments field, when present, is a
list of raw segment mappings. -/
def wfItinVal : PyVal → Bool
  | .pyDict es =>
      match lookupField es "segments" with
      | Option.none => true
      | some (.pyList segs) => segs.all wfSegVal
      | some _ => false
  | _ => false

/-- A raw offer value is a loosely-typed nested mapping: a dict whose price
field, when present, is a dict, and whose itineraries field, when present, is a
list of raw itinerary mappings. -/
def wfOfferVal : PyVal → Bool
  | .pyDict es =>
      optFieldIsDict es "price" &&
        (match lookupField es "itineraries" with
         | Option.none => true
         | some (.pyList its) => its.all wfItinVal
         | some _ => false)
  | _ => false

/-- The list of raw segments that the source's inner loop walks for one raw
itinerary: itinerary.get(segments, []). -/
def rawSegments : PyVal → List PyVal
  | .pyDict es =>
      match lookupField es "segments" with
      | some (.pyList segs) => segs
      | _ => []
  | _ => []

/-- The list of raw itineraries that the source's outer loop walks for one raw
offer: offer.get(itineraries, []). -/
def rawItineraries : PyVal → List PyVal
  | .pyDict es =>
      match lookupField es "itineraries" with
      | some (.pyList its) => its
      | _ => []
  | _ => []

/-- Numeric value of a digit run, most significant first. -/
def digitsVal (l : List Char) : Nat :=
  l.foldl (fun acc c => acc * 10 + (c.toNat - 48)) 0

/-- Negate when the sign flag is set. -/
def applySign (neg : Bool) (n : Int) : Int := if neg then -n else n

/-- The whitespace characters float() strips around its input: ASCII 9-13 and
the space. -/
def isPySpace (c : Char) : Bool :=
  decide ((9 ≤ c.toNat ∧ c.toNat ≤ 13) ∨ c.toNat = 32)

/-- Tail of an underscored digit run: every underscore must be followed by a
digit, and every other character must be a digit. -/
def okRunAux : List Char → Bool
  | [] => true
  | '_' :: [] => false
  | '_' :: c :: rest => c.isDigit && okRunAux rest
  | c :: rest => c.isDigit && okRunAux rest

/-- A digit run with PEP-515 underscores as float() accepts them: nonempty,
beginning with a digit, every underscore between digits. -/
def okRun : List Char → Bool
  | [] => false
  | c :: rest => c.isDigit && okRunAux rest

/-- Drop the underscores of a validated digit run. -/
def stripScores (l : List Char) : List Char :=
  l.filter (fun c => !(c == '_'))

/-- Optional exponent suffix of a float literal: empty, or e/E, an optional
sign, then an underscored digit run. -/
def parseExpSuffix : List Char → Option Int
  | [] => some 0
  | c :: rest =>
    if c == 'e' || c == 'E' then
      let (negE, ds) :=
        match rest with
        | '-' :: r => (true, r)
        | '+' :: r => (false, r)
        | r => (false, r)
      if okRun ds then some (applySign negE (digitsVal (stripScores ds)))
      else Option.none
    else Option.none

/-- Parse a string exactly the way the Python builtin float() does on ASCII
input: strip surrounding whitespace, take an optional sign, then either a
case-insensitive inf / infinity / nan, or a decimal literal — underscored
digit runs, an optional fractional part, at least one digit overall, an
optional exponent — rounded to the nearest binary64 double. -/
def parseFloat (s : String) : Option FVal :=
  let trimmed := ((s.toList.dropWhile isPySpace).reverse.dropWhile isPySpace).reverse
  let (neg, body) :=
    match trimmed with
    | '-' :: r => (true, r)
    | '+' :: r => (false, r)
    | r => (false, r)
  let low := body.map Char.toLower
  if low = ['i', 'n', 'f'] ∨ low = ['i', 'n', 'f', 'i', 'n', 'i', 't', 'y'] then
    some (if neg then .neginf else .inf)
  else if low = ['n', 'a', 'n'] then
    some FVal.nan
  else
    let isRunChar : Char → Bool := fun c => c.isDigit || c == '_'
    let intRun := body.takeWhile isRunChar
    let afterInt := body.dropWhile isRunChar
    let (fracRun, afterFrac) :=
      match afterInt with
      | '.' :: t => (t.takeWhile isRunChar, t.dropWhile isRunChar)
      | t => (([] : List Char), t)
    if intRun.isEmpty && fracRun.isEmpty then Option.none
    else if !intRun.isEmpty && !okRun intRun then Option.none
    else if !fracRun.isEmpty && !okRun fracRun then Option.none
    else
      match parseExpSuffix afterFrac with
      | Option.none => Option.none
      | some e =>
        let intDigits := stripScores intRun
        let fracDigits := stripScores fracRun
        let m := digitsVal (intDigits ++ fracDigits)
        let d : Int := e - fracDigits.length
        some (mkFloat neg m d)

/-- Models the Python builtin float() as applied by the sort key: strings go
through parseFloat (ValueError when rejected), ints and bools convert (a
too-large int overflows), and any other value raises TypeError. -/
def pyFloat : PyVal → Except String FVal
  | .pyStr s =>
    match parseFloat s with
    | some f => .ok f
    | Option.none => .error "ValueError"
  | .pyInt n =>
    if n = 0 then .ok (.finite 0)
    else
      match roundPosToUnits n.natAbs 0 with
      | some u => .ok (.finite (if n < 0 then -(u : Int) else (u : Int)))
      | Option.none => .error "OverflowError"
  | .pyBool b => .ok (.finite (if b then ((2 ^ 1074 : Nat) : Int) else 0))
  | .pyNone => .error "TypeError"
  | .pyList _ => .error "TypeError"
  | .pyDict _ => .error "TypeError"

/-- The sort key of compare_flights (source line 167):
lambda x: float(x[price][total]). -/
def priceKey (p : ParsedOffer) : Except String FVal :=
  pyFloat p.price.total

/-- Comparison used by the stable sort: by key value only, with Python's
double ordering. -/
def keyRel (a b : ParsedOffer × FVal) : Prop := fBle a.2 b.2 = true

/-- Strict version of the key comparison. -/
def keyLt (a b : ParsedOffer × FVal) : Prop := fBlt a.2 b.2 = true

instance keyRelDecidable : DecidableRel keyRel :=
  fun _ _ => inferInstanceAs (Decidable (_ = true))

instance keyLtDecidable : DecidableRel keyLt :=
  fun _ _ => inferInstanceAs (Decidable (_ = true))

instance : IsAntisymm (ParsedOffer × FVal) keyLt :=
  ⟨by
    intro a b h1 h2
    exfalso
    obtain ⟨p1, k1⟩ := a
    obtain ⟨p2, k2⟩ := b
    unfold keyLt at h1 h2
    dsimp at h1 h2
    cases k1 <;> cases k2 <;> simp [fBlt] at h1 h2 <;> omega⟩

/-- The offer-level ordering established by the sort: whenever both price keys
evaluate, the earlier offer's key is at most the later one's. -/
def priceLe (p q : ParsedOffer) : Prop :=
  ∀ kp kq, priceKey p = Except.ok kp → priceKey q = Except.ok kq → fBle kp kq = true

/-- Evaluation of the sort key on every element, in list order.  Python's
list.sort computes key(x) for each element before comparing; the first raised
exception aborts the sort (and compare_flights) with the list unchanged. -/
def keyedOffers (l : List ParsedOffer) : Except String (List (ParsedOffer × FVal)) :=
  mapE (fun p => (priceKey p).map (fun k => (p, k))) l

/-- The sort statement of compare_flights (source line 167):
parsed_offers.sort(key=lambda x: float(x[price][total])).  Python's sort is
stable and orders ascending by the key; a stable sort by a fixed key is the
same function as insertion sort by that key. -/
def sortStep (l : List ParsedOffer) : Except String (List ParsedOffer) := do
  let keyed ← keyedOffers l
  pure ((List.insertionSort keyRel keyed).map Prod.fst)

/-- Outcome of the one call to the external Amadeus search capability: either a
response whose data is a list of raw offers (or absent), or a ResponseError
raised on transport/auth failure. -/
inductive ApiOutcome where
  | success (data : Option (List PyVal))
  | responseError

/-- Translation of FlightAggregator.search_flights (source lines 56-91): on a
successful response the data is returned as-is; a ResponseError is caught,
logged and turned into an empty list. -/
def search_flights (outcome : ApiOutcome) : Option (List PyVal) :=
  match outcome with
  | .success data => data
  | .responseError => some []

/-- Python truthiness test of the offers value in compare_flights (line 160):
None and the empty list are both falsy. -/
def isFalsy (offers : Option (List PyVal)) : Bool :=
  match offers with
  | Option.none => true
  | some l => l.isEmpty

/-- Translation of FlightAggregator.compare_flights (source lines 139-169):
search, return [] when the result is falsy, otherwise parse every offer and
sort by price.  A raised exception (unparseable price) propagates. -/
def compare_flights (outcome : ApiOutcome) : Except String (List ParsedOffer) :=
  let offers := search_flights outcome
  if isFalsy offers then .ok []
  else do
    let parsed ← mapE parse_flight_offer (offers.getD [])
    sortStep parsed

/-- Translation of the params dict built by search_flights (source lines
57-68): the seven always-present keys, then returnDate added only when the
return_date argument is truthy (None and the empty string are falsy). -/
def build_params (origin destination departure_date : String) (adults : Int)
    (return_date : Option String) (max_results : Int) (currency : String)
    (non_stop : Bool) : List (String × PyVal) :=
  let params : List (String × PyVal) :=
    [("originLocationCode", .pyStr origin),
     ("destinationLocationCode", .pyStr destination),
     ("departureDate", .pyStr departure_date),
     ("adults", .pyInt adults),
     ("max", .pyInt max_results),
     ("currencyCode", .pyStr currency),
     ("nonStop", .pyBool non_stop)]
  match return_date with
  | some s => if s = "" then params else params ++ [("returnDate", .pyStr s)]
  | Option.none => params

/-- Translation of the return-date selection in FlightSearchGUI.perform_search
(flight_gui.py lines 240-242): the formatted calendar date when the round-trip
box is enabled, None otherwise. -/
def gui_return_date (return_enabled : Bool) (formatted_date : String) : Option String :=
  if return_enabled then some formatted_date else Option.none

/-- A raw offer with only an id and a price, as in the ranking examples of the
specification. -/
def exOffer (idStr total : String) : PyVal :=
  .pyDict [("id", .pyStr idStr),
           ("price", .pyDict [("total", .pyStr total), ("currency", .pyStr "USD")])]

/-- The four-offer raw list of the specification's concrete ranking example. -/
def raws4 : List PyVal :=
  [exOffer "A" "250.00", exOffer "B" "99.99", exOffer "C" "99.99", exOffer "D" "500.00"]

/-- Parsed form of exOffer A 250.00. -/
def offerA : ParsedOffer := ⟨.pyStr "A", ⟨.pyStr "250.00", .pyStr "USD"⟩, []⟩

/-- Parsed form of exOffer B 99.99. -/
def offerB : ParsedOffer := ⟨.pyStr "B", ⟨.pyStr "99.99", .pyStr "USD"⟩, []⟩

/-- Parsed form of exOffer C 99.99. -/
def offerC : ParsedOffer := ⟨.pyStr "C", ⟨.pyStr "99.99", .pyStr "USD"⟩, []⟩

/-- Parsed form of exOffer D 500.00. -/
def offerD : ParsedOffer := ⟨.pyStr "D", ⟨.pyStr "500.00", .pyStr "USD"⟩, []⟩

/-- Parsed offers of the four-offer example, in provider order. -/
def parsed4 : List ParsedOffer := [offerA, offerB, offerC, offerD]

/-- The four example offers decorated with their double price keys: 250.0 and
500.0 are exact, 99.99 rounds to 7036170730324623 * 2 ^ (-46). -/
def keyed4 : List (ParsedOffer × FVal) :=
  [(offerA, .finite ((125 * 2 ^ 1075 : Nat) : Int)),
   (offerB, .finite ((7036170730324623 * 2 ^ 1028 : Nat) : Int)),
   (offerC, .finite ((7036170730324623 * 2 ^ 1028 : Nat) : Int)),
   (offerD, .finite ((125 * 2 ^ 1076 : Nat) : Int))]

/-- Entries of a raw offer with one itinerary of two segments and no price. -/
def exItinEntries : List (String × PyVal) :=
  [("id", .pyStr "X"),
   ("itineraries", .pyList
     [.pyDict [("duration", .pyStr "PT5H"),
               ("segments", .pyList [.pyDict [], .pyDict [("carrierCode", .pyStr "AA")]])]])]

/-- Entries of a raw segment whose departure dict lacks a terminal and whose
aircraft field is absent. -/
def exSegEntries : List (String × PyVal) :=
  [("departure", .pyDict [("iataCode", .pyStr "JFK")])]

/-- A single parsed offer used to exercise the sort-step properties. -/
def offerW : ParsedOffer := ⟨.pyStr "W", ⟨.pyStr "99.99", .pyStr "USD"⟩, []⟩

/-- offerW decorated with its double price key. -/
def keyedW : List (ParsedOffer × FVal) :=
  [(offerW, .finite ((7036170730324623 * 2 ^ 1028 : Nat) : Int))]

theorem fBle_trans {a b c : FVal} (h1 : fBle a b = true) (h2 : fBle b c = true) :
    fBle a c = true := by
  cases a <;> cases b <;> cases c <;> simp_all [fBle] <;> omega

theorem fBle_total {a b : FVal} (ha : a ≠ FVal.nan) (hb : b ≠ FVal.nan) :
    fBle a b = true ∨ fBle b a = true := by
  cases a <;> cases b <;> simp_all [fBle] <;> omega

theorem fBeq_comm (a b : FVal) : fBeq a b = fBeq b a := by
  cases a <;> cases b <;> simp [fBeq, decide_eq_decide] <;> omega

theorem fBeq_common {x y c : FVal} (hx : fBeq x c = true) (hy : fBeq y c = true) :
    fBeq x y = true := by
  cases x <;> cases y <;> cases c <;> simp_all [fBeq] <;> omega

theorem fBle_of_fBeq {a b : FVal} (h : fBeq a b = true) : fBle a b = true := by
  cases a <;> cases b <;> simp_all [fBeq, fBle] <;> omega

theorem fBeq_false_of_fBlt {a b : FVal} (h : fBlt a b = true) : fBeq a b = false := by
  cases a <;> cases b <;> simp_all [fBlt, fBeq] <;> omega

theorem fBlt_ne_nan {a b : FVal} (h : fBlt a b = true) :
    a ≠ FVal.nan ∧ b ≠ FVal.nan := by
  cases a <;> cases b <;> simp_all [fBlt]

theorem fBlt_of_fBle_ne {a b : FVal} (h1 : fBle a b = true) (h2 : fBeq a b = false) :
    fBlt a b = true := by
  cases a <;> cases b <;> simp_all [fBle, fBeq, fBlt] <;> omega

@[simp] theorem bind_ok_eq {α β : Type} (a : α) (f : α → Except String β) :
    (Except.ok a >>= f) = f a := rfl

@[simp] theorem bind_error_eq {α β : Type} (e : String) (f : α → Except String β) :
    ((Except.error e : Except String α) >>= f) = Except.error e := rfl

@[simp] theorem pure_eq {α : Type} (a : α) : (pure a : Except String α) = Except.ok a := rfl

theorem mapE_ok_forall2 {α β : Type} {f : α → Except String β} :
    ∀ {l : List α} {ys : List β}, mapE f l = .ok ys →
      List.Forall₂ (fun x y => f x = .ok y) l ys := by
  intro l
  induction l with
  | nil =>
    intro ys h
    simp [mapE] at h
    subst h
    exact List.Forall₂.nil
  | cons x xs ih =>
    intro ys h
    cases hfx : f x with
    | error e => simp [mapE, hfx] at h
    | ok y =>
      cases hrest : mapE f xs with
      | error e => simp [mapE, hfx, hrest] at h
      | ok ys2 =>
        simp [mapE, hfx, hrest] at h
        subst h
        exact List.Forall₂.cons hfx (ih hrest)

theorem mapE_ok_of_forall {α β : Type} {f : α → Except String β} {l : List α}
    (h : ∀ x ∈ l, ∃ y, f x = .ok y) : ∃ ys, mapE f l = .ok ys := by
  induction l with
  | nil => exact ⟨[], rfl⟩
  | cons x xs ih =>
    obtain ⟨y, hy⟩ := h x (List.mem_cons_self x xs)
    obtain ⟨ys, hys⟩ := ih (fun z hz => h z (List.mem_cons_of_mem x hz))
    exact ⟨y :: ys, by simp [mapE, hy, hys]⟩

theorem mapE_error_of_mem {α β : Type} {f : α → Except String β} {l : List α} {x : α}
    (hx : x ∈ l) (hbad : ∀ b, f x ≠ .ok b) : ∃ e, mapE f l = .error e := by
  induction l with
  | nil => cases hx
  | cons z zs ih =>
    rcases List.mem_cons.mp hx with rfl | hmem
    · cases hfx : f x with
      | error e => exact ⟨e, by simp [mapE, hfx]⟩
      | ok b => exact absurd hfx (hbad b)
    · cases hfz : f z with
      | error e => exact ⟨e, by simp [mapE, hfz]⟩
      | ok y =>
        obtain ⟨e, he⟩ := ih hmem
        exact ⟨e, by simp [mapE, hfz, he]⟩

theorem forall2_mem_left {α β : Type} {R : α → β → Prop} :
    ∀ {l1 : List α} {l2 : List β}, List.Forall₂ R l1 l2 →
      ∀ {a}, a ∈ l1 → ∃ b, b ∈ l2 ∧ R a b := by
  intro l1 l2 h
  induction h with
  | nil => intro a ha; cases ha
  | cons hR _ ih =>
    intro a ha
    rcases List.mem_cons.mp ha with rfl | hmem
    · exact ⟨_, List.mem_cons_self _ _, hR⟩
    · obtain ⟨b, hb, hRb⟩ := ih hmem
      exact ⟨b, List.mem_cons_of_mem _ hb, hRb⟩

theorem forall2_mem_right {α β : Type} {R : α → β → Prop} :
    ∀ {l1 : List α} {l2 : List β}, List.Forall₂ R l1 l2 →
      ∀ {b}, b ∈ l2 → ∃ a, a ∈ l1 ∧ R a b := by
  intro l1 l2 h
  induction h with
  | nil => intro b hb; cases hb
  | cons hR _ ih =>
    intro b hb
    rcases List.mem_cons.mp hb with rfl | hmem
    · exact ⟨_, List.mem_cons_self _ _, hR⟩
    · obtain ⟨a, ha, hRa⟩ := ih hmem
      exact ⟨a, List.mem_cons_of_mem _ ha, hRa⟩

theorem forall2_imp_mem {α β : Type} {R S : α → β → Prop} :
    ∀ {l1 : List α} {l2 : List β}, List.Forall₂ R l1 l2 →
      (∀ a b, a ∈ l1 → b ∈ l2 → R a b → S a b) → List.Forall₂ S l1 l2 := by
  intro l1 l2 h
  induction h with
  | nil => intro _; exact List.Forall₂.nil
  | cons hR hrest ih =>
    intro himp
    refine List.Forall₂.cons
      (himp _ _ (List.mem_cons_self _ _) (List.mem_cons_self _ _) hR) (ih ?_)
    intro a b ha hb hab
    exact himp a b (List.mem_cons_of_mem _ ha) (List.mem_cons_of_mem _ hb) hab

theorem isDictVal_dict {v : PyVal} (h : isDictVal v = true) : ∃ es, v = .pyDict es := by
  cases v with
  | pyDict es => exact ⟨es, rfl⟩
  | _ => simp [isDictVal] at h

theorem optFieldIsDict_getD {es : List (String × PyVal)} {k : String}
    (h : optFieldIsDict es k = true) :
    ∃ des, (lookupField es k).getD (.pyDict []) = .pyDict des := by
  unfold optFieldIsDict at h
  cases hl : lookupField es k with
  | none => exact ⟨[], by simp [hl]⟩
  | some v =>
    rw [hl] at h
    obtain ⟨des, rfl⟩ := isDictVal_dict h
    exact ⟨des, by simp [hl]⟩

theorem parseSegment_eq {es des ars aes : List (String × PyVal)}
    (hdes : (lookupField es "departure").getD (.pyDict []) = .pyDict des)
    (hars : (lookupField es "arrival").getD (.pyDict []) = .pyDict ars)
    (haes : (lookupField es "aircraft").getD (.pyDict []) = .pyDict aes) :
    parseSegment (.pyDict es) = .ok
      { departure := ⟨(lookupField des "iataCode").getD .pyNone,
                      (lookupField des "at").getD .pyNone,
                      (lookupField des "terminal").getD .pyNone⟩,
        arrival := ⟨(lookupField ars "iataCode").getD .pyNone,
                    (lookupField ars "at").getD .pyNone,
                    (lookupField ars "terminal").getD .pyNone⟩,
        carrier := (lookupField es "carrierCode").getD .pyNone,
        flight_number := (lookupField es "number").getD .pyNone,
        aircraft := (lookupField aes "code").getD .pyNone,
        duration := (lookupField es "duration").getD .pyNone } := by
  unfold parseSegment
  simp [dictGet, dictGetD, hdes, hars, haes]

theorem wfSegVal_parts {es : List (String × PyVal)} (h : wfSegVal (.pyDict es) = true) :
    optFieldIsDict es "departure" = true ∧ optFieldIsDict es "arrival" = true ∧
      optFieldIsDict es "aircraft" = true := by
  unfold wfSegVal at h
  simpa [Bool.and_eq_true, and_assoc] using h

theorem parseSegment_total {v : PyVal} (h : wfSegVal v = true) :
    ∃ s, parseSegment v = .ok s := by
  cases v with
  | pyDict es =>
    obtain ⟨h1, h2, h3⟩ := wfSegVal_parts h
    obtain ⟨des, hdes⟩ := optFieldIsDict_getD h1
    obtain ⟨ars, hars⟩ := optFieldIsDict_getD h2
    obtain ⟨aes, haes⟩ := optFieldIsDict_getD h3
    exact ⟨_, parseSegment_eq hdes hars haes⟩
  | _ => simp [wfSegVal] at h

theorem parseItinerary_wf {v : PyVal} (h : wfItinVal v = true) :
    ∃ it, parseItinerary v = .ok it ∧
      List.Forall₂ (fun rs s => parseSegment rs = .ok s) (rawSegments v) it.segments := by
  cases v with
  | pyDict es =>
    simp only [wfItinVal] at h
    cases hl : lookupField es "segments" with
    | none =>
      refine ⟨⟨(lookupField es "duration").getD .pyNone, []⟩, ?_, ?_⟩
      · unfold parseItinerary
        simp [dictGet, dictGetD, hl, asList, mapE]
      · simp [rawSegments, hl]
    | some sv =>
      rw [hl] at h
      cases sv with
      | pyList segs =>
        have hall : ∀ s ∈ segs, wfSegVal s = true := by simpa using h
        obtain ⟨ss, hss⟩ := mapE_ok_of_forall (fun s hs => parseSegment_total (hall s hs))
        refine ⟨⟨(lookupField es "duration").getD .pyNone, ss⟩, ?_, ?_⟩
        · unfold parseItinerary
          simp [dictGet, dictGetD, hl, asList, hss]
        · simpa [rawSegments, hl] using mapE_ok_forall2 hss
      | _ => simp at h
  | _ => simp [wfItinVal] at h

theorem parseItinerary_total {v : PyVal} (h : wfItinVal v = true) :
    ∃ it, parseItinerary v = .ok it := by
  obtain ⟨it, hit, _⟩ := parseItinerary_wf h
  exact ⟨it, hit⟩

theorem parse_flight_offer_wf {es : List (String × PyVal)}
    (h : wfOfferVal (.pyDict es) = true) :
    ∃ p pes, parse_flight_offer (.pyDict es) = .ok p ∧
      p.id = (lookupField es "id").getD .pyNone ∧
      (lookupField es "price").getD (.pyDict []) = .pyDict pes ∧
      p.price.total = (lookupField pes "total").getD .pyNone ∧
      p.price.currency = (lookupField pes "currency").getD .pyNone ∧
      List.Forall₂ (fun rit it => parseItinerary rit = .ok it)
        (rawItineraries (.pyDict es)) p.itineraries := by
  simp only [wfOfferVal] at h
  rw [Bool.and_eq_true] at h
  obtain ⟨hp, hits⟩ := h
  obtain ⟨pes, hpes⟩ := optFieldIsDict_getD hp
  cases hl : lookupField es "itineraries" with
  | none =>
    refine ⟨⟨(lookupField es "id").getD .pyNone,
            ⟨(lookupField pes "total").getD .pyNone,
             (lookupField pes "currency").getD .pyNone⟩, []⟩,
        pes, ?_, rfl, hpes, rfl, rfl, ?_⟩
    · unfold parse_flight_offer
      simp [dictGet, dictGetD, hpes, hl, asList, mapE]
    · simp [rawItineraries, hl]
  | some iv =>
    rw [hl] at hits
    cases iv with
    | pyList its =>
      have hall : ∀ it ∈ its, wfItinVal it = true := by simpa using hits
      obtain ⟨pits, hpits⟩ := mapE_ok_of_forall (fun it hit => parseItinerary_total (hall it hit))
      refine ⟨⟨(lookupField es "id").getD .pyNone,
              ⟨(lookupField pes "total").getD .pyNone,
               (lookupField pes "currency").getD .pyNone⟩, pits⟩,
          pes, ?_, rfl, hpes, rfl, rfl, ?_⟩
      · unfold parse_flight_offer
        simp [dictGet, dictGetD, hpes, hl, asList, hpits]
      · simpa [rawItineraries, hl] using mapE_ok_forall2 hpits
    | _ => simp at hits

theorem parse_flight_offer_total {v : PyVal} (h : wfOfferVal v = true) :
    ∃ p, parse_flight_offer v = .ok p := by
  cases v with
  | pyDict es =>
    obtain ⟨p, pes, hp, _⟩ := parse_flight_offer_wf h
    exact ⟨p, hp⟩
  | _ => simp [wfOfferVal] at h

theorem wfOfferVal_itins {es : List (String × PyVal)}
    (h : wfOfferVal (.pyDict es) = true) :
    ∀ rit ∈ rawItineraries (.pyDict es), wfItinVal rit = true := by
  simp only [wfOfferVal] at h
  rw [Bool.and_eq_true] at h
  obtain ⟨_, hits⟩ := h
  intro rit hrit
  cases hl : lookupField es "itineraries" with
  | none => simp [rawItineraries, hl] at hrit
  | some iv =>
    rw [hl] at hits
    cases iv with
    | pyList its =>
      rw [List.all_eq_true] at hits
      simp only [rawItineraries, hl] at hrit
      exact hits rit hrit
    | _ => simp at hits

theorem keyedOffers_fst {l : List ParsedOffer} {kl : List (ParsedOffer × FVal)}
    (h : keyedOffers l = .ok kl) : kl.map Prod.fst = l := by
  have h2 := mapE_ok_forall2 h
  clear h
  induction h2 with
  | nil => rfl
  | @cons a y l1 l2 hR hrest ih =>
    cases hk : priceKey a with
    | error e => rw [hk] at hR; simp [Except.map] at hR
    | ok k =>
      rw [hk] at hR
      simp [Except.map] at hR
      subst hR
      simp [List.map_cons, ih]

theorem keyedOffers_key {l : List ParsedOffer} {kl : List (ParsedOffer × FVal)}
    (h : keyedOffers l = .ok kl) : ∀ pr ∈ kl, priceKey pr.1 = .ok pr.2 := by
  intro pr hpr
  obtain ⟨x, _, hR⟩ := forall2_mem_right (mapE_ok_forall2 h) hpr
  cases hk : priceKey x with
  | error e => rw [hk] at hR; simp [Except.map] at hR
  | ok k =>
    rw [hk] at hR
    simp [Except.map] at hR
    subst hR
    simpa using hk

theorem keyedOffers_length {l : List ParsedOffer} {kl : List (ParsedOffer × FVal)}
    (h : keyedOffers l = .ok kl) : kl.length = l.length :=
  (List.Forall₂.length_eq (mapE_ok_forall2 h)).symm

theorem sortStep_eq {l : List ParsedOffer} {kl : List (ParsedOffer × FVal)}
    (h : keyedOffers l = .ok kl) :
    sortStep l = .ok ((List.insertionSort keyRel kl).map Prod.fst) := by
  unfold sortStep
  simp [h]

theorem sortStep_error {l : List ParsedOffer} {e : String}
    (h : keyedOffers l = .error e) : sortStep l = .error e := by
  unfold sortStep
  simp [h]

theorem compare_flights_cons (r : PyVal) (rs : List PyVal) :
    compare_flights (.success (some (r :: rs))) =
      (mapE parse_flight_offer (r :: rs)) >>= sortStep := rfl

theorem pairwise_orderedInsert (x : ParsedOffer × FVal) :
    ∀ l : List (ParsedOffer × FVal), List.Pairwise keyRel l →
      (∀ y ∈ l, keyRel x y ∨ keyRel y x) →
      List.Pairwise keyRel (List.orderedInsert keyRel x l) := by
  intro l
  induction l with
  | nil =>
    intro _ _
    simp [List.orderedInsert]
  | cons y ys ih =>
    intro hl htot
    by_cases hxy : keyRel x y
    · rw [List.orderedInsert, if_pos hxy]
      refine List.Pairwise.cons ?_ hl
      intro z hz
      rcases List.mem_cons.mp hz with rfl | hzys
      · exact hxy
      · exact fBle_trans hxy (List.rel_of_pairwise_cons hl hzys)
    · rw [List.orderedInsert, if_neg hxy]
      have hyx : keyRel y x := (htot y (List.mem_cons_self y ys)).resolve_left hxy
      refine List.Pairwise.cons ?_
        (ih (List.Pairwise.of_cons hl) (fun z hz => htot z (List.mem_cons_of_mem y hz)))
      intro z hz
      rcases (List.mem_orderedInsert keyRel).mp hz with rfl | hzys
      · exact hyx
      · exact List.rel_of_pairwise_cons hl hzys

theorem pairwise_insertionSort_nonan :
    ∀ kl : List (ParsedOffer × FVal), (∀ pr ∈ kl, pr.2 ≠ FVal.nan) →
      List.Pairwise keyRel (List.insertionSort keyRel kl) := by
  intro kl
  induction kl with
  | nil =>
    intro _
    simp [List.insertionSort]
  | cons x xs ih =>
    intro hnn
    rw [List.insertionSort]
    refine pairwise_orderedInsert x _
      (ih (fun pr hpr => hnn pr (List.mem_cons_of_mem x hpr))) ?_
    intro y hy
    have hy2 : y ∈ xs := (List.mem_insertionSort keyRel).mp hy
    exact fBle_total (hnn x (List.mem_cons_self x xs)) (hnn y (List.mem_cons_of_mem x hy2))

theorem filter_orderedInsert_eqv {x : ParsedOffer × FVal} {c : FVal}
    (hx : fBeq x.2 c = true) :
    ∀ l : List (ParsedOffer × FVal),
      (List.orderedInsert keyRel x l).filter (fun q => fBeq q.2 c) =
        x :: l.filter (fun q => fBeq q.2 c) := by
  intro l
  induction l with
  | nil => simp [List.orderedInsert, hx]
  | cons y ys ih =>
    by_cases hxy : keyRel x y
    · simp [List.orderedInsert, hxy, hx]
    · have hyne : fBeq y.2 c = false := by
        cases hyc : fBeq y.2 c with
        | false => rfl
        | true => exact absurd (fBle_of_fBeq (fBeq_common hx hyc)) hxy
      simp [List.orderedInsert, hxy, hyne, ih]

theorem filter_orderedInsert_not {x : ParsedOffer × FVal} {c : FVal}
    (hx : fBeq x.2 c = false) :
    ∀ l : List (ParsedOffer × FVal),
      (List.orderedInsert keyRel x l).filter (fun q => fBeq q.2 c) =
        l.filter (fun q => fBeq q.2 c) := by
  intro l
  induction l with
  | nil => simp [List.orderedInsert, hx]
  | cons y ys ih =>
    by_cases hxy : keyRel x y
    · simp [List.orderedInsert, hxy, hx]
    · cases hy : fBeq y.2 c with
      | false =>
        rw [List.orderedInsert, if_neg hxy,
          List.filter_cons_of_neg (by simp [hy]),
          List.filter_cons_of_neg (by simp [hy]), ih]
      | true =>
        rw [List.orderedInsert, if_neg hxy,
          List.filter_cons_of_pos (by simp [hy]),
          List.filter_cons_of_pos (by simp [hy]), ih]

theorem filter_insertionSort (c : FVal) :
    ∀ kl : List (ParsedOffer × FVal),
      (List.insertionSort keyRel kl).filter (fun q => fBeq q.2 c) =
        kl.filter (fun q => fBeq q.2 c) := by
  intro kl
  induction kl with
  | nil => rfl
  | cons x xs ih =>
    cases hx : fBeq x.2 c with
    | false =>
      rw [List.insertionSort, filter_orderedInsert_not hx, ih,
        List.filter_cons_of_neg (by simp [hx])]
    | true =>
      rw [List.insertionSort, filter_orderedInsert_eqv hx, ih,
        List.filter_cons_of_pos (by simp [hx])]

/-- C1: a successful search reporting zero raw offers (empty or absent data)
makes compare_flights return the empty list, a valid no-results outcome; but a
transport/auth ResponseError produces the very same Except.ok [] at the
pipeline boundary, so the two outcomes are not distinguishable there — the
code collapses the distinction the specification requires. -/
theorem C1_empty_result_indistinguishable_from_error :
    compare_flights (ApiOutcome.success (some [])) = Except.ok [] ∧
    compare_flights (ApiOutcome.success Option.none) = Except.ok [] ∧
    compare_flights ApiOutcome.responseError = Except.ok [] ∧
    compare_flights ApiOutcome.responseError =
      compare_flights (ApiOutcome.success (some [])) :=
  ⟨rfl, rfl, rfl, rfl⟩

/-- C3: on every loosely-typed nested mapping, with any combination of missing
fields at any nesting level, parse_flight_offer returns a ParsedOffer instead
of raising, and an absent id or price field yields null in the output. -/
theorem C3_normalize_total (v : PyVal) (h : wfOfferVal v = true) :
    ∃ p, parse_flight_offer v = Except.ok p ∧
      ∀ es, v = PyVal.pyDict es →
        (lookupField es "id" = Option.none → p.id = PyVal.pyNone) ∧
        (lookupField es "price" = Option.none →
          p.price.total = PyVal.pyNone ∧ p.price.currency = PyVal.pyNone) := by
  cases v with
  | pyDict es =>
    obtain ⟨p, pes, hp, hid, hpes, htot, hcur, _⟩ := parse_flight_offer_wf h
    refine ⟨p, hp, ?_⟩
    intro es2 heq
    injection heq with heq
    subst heq
    constructor
    · intro hidn
      rw [hid, hidn]
      rfl
    · intro hpn
      rw [hpn] at hpes
      simp only [Option.getD_none] at hpes
      injection hpes with hpes
      subst hpes
      exact ⟨by rw [htot]; rfl, by rw [hcur]; rfl⟩
  | _ => simp [wfOfferVal] at h

/-- C3 witness: the empty mapping normalizes to a ParsedOffer with null id and
null price fields. -/
theorem C3_witness :
    wfOfferVal (PyVal.pyDict []) = true ∧
    (∃ p, parse_flight_offer (PyVal.pyDict []) = Except.ok p ∧
      ∀ es, PyVal.pyDict [] = PyVal.pyDict es →
        (lookupField es "id" = Option.none → p.id = PyVal.pyNone) ∧
        (lookupField es "price" = Option.none →
          p.price.total = PyVal.pyNone ∧ p.price.currency = PyVal.pyNone)) :=
  ⟨rfl, C3_normalize_total (PyVal.pyDict []) rfl⟩

/-- C5: the parsed offer has exactly as many itineraries as the raw offer, in
provider order, and each parsed itinerary has exactly as many segments as the
corresponding raw itinerary; zero raw itineraries yield the empty sequence. -/
theorem C5_counts_preserved (es : List (String × PyVal))
    (h : wfOfferVal (PyVal.pyDict es) = true) :
    ∃ p, parse_flight_offer (PyVal.pyDict es) = Except.ok p ∧
      p.itineraries.length = (rawItineraries (PyVal.pyDict es)).length ∧
      List.Forall₂ (fun rit it => parseItinerary rit = Except.ok it ∧
          it.segments.length = (rawSegments rit).length)
        (rawItineraries (PyVal.pyDict es)) p.itineraries ∧
      (rawItineraries (PyVal.pyDict es) = [] → p.itineraries = []) := by
  obtain ⟨p, pes, hp, _, _, _, _, hf2⟩ := parse_flight_offer_wf h
  have hwfits := wfOfferVal_itins h
  refine ⟨p, hp, hf2.length_eq.symm, ?_, fun hnil => ?_⟩
  · refine forall2_imp_mem hf2 ?_
    intro rit it hrit _ hok
    obtain ⟨it2, hit2, hsegs⟩ := parseItinerary_wf (hwfits rit hrit)
    rw [hok] at hit2
    injection hit2 with h3
    subst h3
    exact ⟨hok, hsegs.length_eq.symm⟩
  · have hlen := hf2.length_eq
    rw [hnil] at hlen
    exact List.eq_nil_of_length_eq_zero hlen.symm

/-- C5 witness: an offer with one itinerary of two segments keeps both counts,
and the absence of a price does not disturb the walk. -/
theorem C5_witness :
    wfOfferVal (PyVal.pyDict exItinEntries) = true ∧
    (∃ p, parse_flight_offer (PyVal.pyDict exItinEntries) = Except.ok p ∧
      p.itineraries.length = (rawItineraries (PyVal.pyDict exItinEntries)).length ∧
      List.Forall₂ (fun rit it => parseItinerary rit = Except.ok it ∧
          it.segments.length = (rawSegments rit).length)
        (rawItineraries (PyVal.pyDict exItinEntries)) p.itineraries ∧
      (rawItineraries (PyVal.pyDict exItinEntries) = [] → p.itineraries = [])) :=
  ⟨rfl, C5_counts_preserved exItinEntries rfl⟩

/-- C7: a raw segment lacking its aircraft field, or lacking the terminal of
its departure (or the whole departure dict), parses to a Segment whose
corresponding field is null; every Segment key is structurally present. -/
theorem C7_missing_segment_fields_null (es : List (String × PyVal))
    (h : wfSegVal (PyVal.pyDict es) = true) :
    ∃ s, parseSegment (PyVal.pyDict es) = Except.ok s ∧
      (lookupField es "aircraft" = Option.none → s.aircraft = PyVal.pyNone) ∧
      (lookupField es "departure" = Option.none → s.departure.terminal = PyVal.pyNone) ∧
      (∀ des, lookupField es "departure" = some (PyVal.pyDict des) →
        lookupField des "terminal" = Option.none →
        s.departure.terminal = PyVal.pyNone) := by
  obtain ⟨h1, h2, h3⟩ := wfSegVal_parts h
  obtain ⟨des, hdes⟩ := optFieldIsDict_getD h1
  obtain ⟨ars, hars⟩ := optFieldIsDict_getD h2
  obtain ⟨aes, haes⟩ := optFieldIsDict_getD h3
  refine ⟨_, parseSegment_eq hdes hars haes, ?_, ?_, ?_⟩
  · intro hn
    rw [hn] at haes
    simp only [Option.getD_none] at haes
    injection haes with haes
    subst haes
    rfl
  · intro hn
    rw [hn] at hdes
    simp only [Option.getD_none] at hdes
    injection hdes with hdes
    subst hdes
    rfl
  · intro des2 hsome hterm
    rw [hsome] at hdes
    simp only [Option.getD_some] at hdes
    injection hdes with hdes
    subst hdes
    show (lookupField des2 "terminal").getD .pyNone = PyVal.pyNone
    rw [hterm]
    rfl

/-- C7 witness: a segment whose departure has no terminal and whose aircraft
field is absent yields null for both, with the keys present. -/
theorem C7_witness :
    wfSegVal (PyVal.pyDict exSegEntries) = true ∧
    (∃ s, parseSegment (PyVal.pyDict exSegEntries) = Except.ok s ∧
      (lookupField exSegEntries "aircraft" = Option.none → s.aircraft = PyVal.pyNone) ∧
      (lookupField exSegEntries "departure" = Option.none →
        s.departure.terminal = PyVal.pyNone) ∧
      (∀ des, lookupField exSegEntries "departure" = some (PyVal.pyDict des) →
        lookupField des "terminal" = Option.none →
        s.departure.terminal = PyVal.pyNone)) :=
  ⟨rfl, C7_missing_segment_fields_null exSegEntries rfl⟩

/-- C10: an offer whose price mapping or total field is absent normalizes to a
null price total, and ranking such a list fails for the whole invocation: a
missing price behaves like an unparseable one, and no offer with a null total
is ever silently ranked or excluded. -/
theorem C10_absent_price_fails_pipeline (raws : List PyVal) (r : PyVal)
    (es : List (String × PyVal))
    (hmem : r ∈ raws) (hr : r = PyVal.pyDict es) (hwf : wfOfferVal r = true)
    (htot : ∀ pes, (lookupField es "price").getD (PyVal.pyDict []) = PyVal.pyDict pes →
      lookupField pes "total" = Option.none) :
    (∃ p, parse_flight_offer r = Except.ok p ∧ p.price.total = PyVal.pyNone) ∧
    (∃ e, compare_flights (ApiOutcome.success (some raws)) = Except.error e) := by
  subst hr
  obtain ⟨p, pes, hp, _, hpes, htot2, _, _⟩ := parse_flight_offer_wf hwf
  have hnull : p.price.total = PyVal.pyNone := by
    rw [htot2, htot pes hpes]
    rfl
  refine ⟨⟨p, hp, hnull⟩, ?_⟩
  obtain ⟨r0, rs, rfl⟩ : ∃ r0 rs, raws = r0 :: rs := by
    cases raws with
    | nil => cases hmem
    | cons a l => exact ⟨a, l, rfl⟩
  rw [compare_flights_cons]
  cases hparse : mapE parse_flight_offer (r0 :: rs) with
  | error e => exact ⟨e, by simp⟩
  | ok ps =>
    obtain ⟨p3, hpmem, hpok⟩ := forall2_mem_left (mapE_ok_forall2 hparse) hmem
    rw [hp] at hpok
    injection hpok with h3
    subst h3
    have hkeybad : ∀ b : ParsedOffer × FVal,
        (priceKey p).map (fun k => (p, k)) ≠ Except.ok b := by
      intro b hb
      rw [priceKey, hnull] at hb
      simp [pyFloat, Except.map] at hb
    obtain ⟨e, he⟩ := mapE_error_of_mem
      (f := fun q => (priceKey q).map (fun k => (q, k))) hpmem hkeybad
    refine ⟨e, ?_⟩
    rw [bind_ok_eq]
    exact sortStep_error he

/-- C10 witness: the empty mapping has no price at all; it normalizes to a null
total and ranking the singleton list fails. -/
theorem C10_witness :
    (PyVal.pyDict [] : PyVal) ∈ [(PyVal.pyDict [] : PyVal)] ∧
    wfOfferVal (PyVal.pyDict []) = true ∧
    ((∃ p, parse_flight_offer (PyVal.pyDict []) = Except.ok p ∧
        p.price.total = PyVal.pyNone) ∧
      (∃ e, compare_flights (ApiOutcome.success (some [PyVal.pyDict []])) =
        Except.error e)) :=
  ⟨List.mem_singleton.mpr rfl, rfl,
   C10_absent_price_fails_pipeline [PyVal.pyDict []] (PyVal.pyDict []) []
     (List.mem_singleton.mpr rfl) rfl rfl
     (fun pes hpes => by injection hpes with h2; rw [← h2]; rfl)⟩

/-- C6: ranking a raw list of N parseable offers returns exactly N parsed
offers: none dropped, none duplicated (the output is a permutation of the
parsed inputs). -/
theorem C6_count_preserved (raws : List PyVal) (ps : List ParsedOffer)
    (kl : List (ParsedOffer × FVal))
    (hparse : mapE parse_flight_offer raws = Except.ok ps)
    (hkeys : keyedOffers ps = Except.ok kl) :
    ∃ out, compare_flights (ApiOutcome.success (some raws)) = Except.ok out ∧
      out.length = raws.length ∧ out.Perm ps := by
  cases raws with
  | nil =>
    simp [mapE] at hparse
    subst hparse
    exact ⟨[], rfl, rfl, List.Perm.refl _⟩
  | cons r0 rs =>
    rw [compare_flights_cons, hparse, bind_ok_eq, sortStep_eq hkeys]
    refine ⟨_, rfl, ?_, ?_⟩
    · rw [List.length_map, List.length_insertionSort, keyedOffers_length hkeys,
        ← (mapE_ok_forall2 hparse).length_eq]
    · have hperm := (List.perm_insertionSort keyRel kl).map Prod.fst
      rw [keyedOffers_fst hkeys] at hperm
      exact hperm

/-- C6 witness: the four-offer example yields exactly four parsed offers. -/
theorem C6_witness :
    mapE parse_flight_offer raws4 = Except.ok parsed4 ∧
    keyedOffers parsed4 = Except.ok keyed4 ∧
    (∃ out, compare_flights (ApiOutcome.success (some raws4)) = Except.ok out ∧
      out.length = raws4.length ∧ out.Perm parsed4) :=
  ⟨rfl, rfl, C6_count_preserved raws4 parsed4 keyed4 rfl rfl⟩

/-- C4: with every price total parseable (to a comparable double — nan admits
no order at all in Python), compare_flights succeeds with a permutation of the
parsed offers ordered ascending by the double value float() assigns to the
price total, with the stable tie-break: entries whose doubles are equal keep
their input order; and the concrete example with totals 250.00, 99.99, 99.99,
500.00 comes out as 99.99, 99.99, 250.00, 500.00 with the two 99.99 offers in
their original relative order. -/
theorem C4_sorts_by_price (raws : List PyVal) (ps : List ParsedOffer)
    (kl : List (ParsedOffer × FVal))
    (hparse : mapE parse_flight_offer raws = Except.ok ps)
    (hkeys : keyedOffers ps = Except.ok kl)
    (hnn : ∀ pr ∈ kl, pr.2 ≠ FVal.nan) :
    (∃ out, compare_flights (ApiOutcome.success (some raws)) = Except.ok out ∧
      out.Perm ps ∧ List.Pairwise priceLe out ∧
      (∀ c, (List.insertionSort keyRel kl).filter (fun q => fBeq q.2 c) =
        kl.filter (fun q => fBeq q.2 c))) ∧
    (compare_flights (ApiOutcome.success (some raws4))).map
        (fun out => out.map (fun p => (p.id, p.price.total))) =
      Except.ok [(PyVal.pyStr "B", PyVal.pyStr "99.99"),
        (PyVal.pyStr "C", PyVal.pyStr "99.99"),
        (PyVal.pyStr "A", PyVal.pyStr "250.00"),
        (PyVal.pyStr "D", PyVal.pyStr "500.00")] := by
  constructor
  · cases raws with
    | nil =>
      simp [mapE] at hparse
      subst hparse
      simp [keyedOffers, mapE] at hkeys
      subst hkeys
      exact ⟨[], rfl, List.Perm.refl _, List.Pairwise.nil, fun c => rfl⟩
    | cons r0 rs =>
      rw [compare_flights_cons, hparse, bind_ok_eq, sortStep_eq hkeys]
      refine ⟨_, rfl, ?_, ?_, fun c => filter_insertionSort c kl⟩
      · have hperm := (List.perm_insertionSort keyRel kl).map Prod.fst
        rw [keyedOffers_fst hkeys] at hperm
        exact hperm
      · have hsl : List.Pairwise keyRel (List.insertionSort keyRel kl) :=
          pairwise_insertionSort_nonan kl hnn
        rw [List.pairwise_map]
        refine List.Pairwise.imp_of_mem ?_ hsl
        intro a b ha hb hab
        intro kp kq hkp hkq
        have ha2 := keyedOffers_key hkeys a ((List.mem_insertionSort keyRel).mp ha)
        have hb2 := keyedOffers_key hkeys b ((List.mem_insertionSort keyRel).mp hb)
        rw [ha2] at hkp
        rw [hb2] at hkq
        injection hkp with hkp
        injection hkq with hkq
        rw [← hkp, ← hkq]
        exact hab
  · rfl

/-- C4 witness: the concrete four-offer list discharges the parse, key and
no-nan hypotheses by computation. -/
theorem C4_witness :
    mapE parse_flight_offer raws4 = Except.ok parsed4 ∧
    keyedOffers parsed4 = Except.ok keyed4 ∧
    (∀ pr ∈ keyed4, pr.2 ≠ FVal.nan) ∧
    ((∃ out, compare_flights (ApiOutcome.success (some raws4)) = Except.ok out ∧
      out.Perm parsed4 ∧ List.Pairwise priceLe out ∧
      (∀ c, (List.insertionSort keyRel keyed4).filter (fun q => fBeq q.2 c) =
        keyed4.filter (fun q => fBeq q.2 c))) ∧
    (compare_flights (ApiOutcome.success (some raws4))).map
        (fun out => out.map (fun p => (p.id, p.price.total))) =
      Except.ok [(PyVal.pyStr "B", PyVal.pyStr "99.99"),
        (PyVal.pyStr "C", PyVal.pyStr "99.99"),
        (PyVal.pyStr "A", PyVal.pyStr "250.00"),
        (PyVal.pyStr "D", PyVal.pyStr "500.00")]) :=
  ⟨rfl, rfl, by decide, C4_sorts_by_price raws4 parsed4 keyed4 rfl rfl (by decide)⟩

/-- C9: the sort step leaves an already ascending-by-price list unchanged,
fully inverts a strictly descending one, and entries of any equal price value
keep their relative input order. -/
theorem C9_sort_properties (l : List ParsedOffer) (kl : List (ParsedOffer × FVal))
    (hkeys : keyedOffers l = Except.ok kl) :
    (List.Pairwise keyRel kl → sortStep l = Except.ok l) ∧
    (List.Pairwise (fun a b : ParsedOffer × FVal => fBlt b.2 a.2 = true) kl →
      sortStep l = Except.ok l.reverse) ∧
    (∀ c, (List.insertionSort keyRel kl).filter (fun q => fBeq q.2 c) =
      kl.filter (fun q => fBeq q.2 c)) := by
  refine ⟨?_, ?_, fun c => filter_insertionSort c kl⟩
  · intro hsorted
    rw [sortStep_eq hkeys, List.Sorted.insertionSort_eq hsorted, keyedOffers_fst hkeys]
  · intro hdesc
    cases kl with
    | nil =>
      have hl : ([] : List (ParsedOffer × FVal)).map Prod.fst = l := keyedOffers_fst hkeys
      simp only [List.map_nil] at hl
      subst hl
      rfl
    | cons k1 krest =>
      cases krest with
      | nil =>
        have hl : [k1].map Prod.fst = l := keyedOffers_fst hkeys
        rw [sortStep_eq hkeys, ← hl]
        rfl
      | cons k2 krest2 =>
        have hnn : ∀ pr ∈ (k1 :: k2 :: krest2), pr.2 ≠ FVal.nan := by
          intro pr hpr
          rcases List.mem_cons.mp hpr with rfl | hpr2
          · have h12 := List.rel_of_pairwise_cons hdesc (List.mem_cons_self k2 krest2)
            exact (fBlt_ne_nan h12).2
          · have h1p := List.rel_of_pairwise_cons hdesc hpr2
            exact (fBlt_ne_nan h1p).1
        rw [sortStep_eq hkeys]
        have hslSorted := pairwise_insertionSort_nonan (k1 :: k2 :: krest2) hnn
        have hperm := List.perm_insertionSort keyRel (k1 :: k2 :: krest2)
        have hrevSorted : List.Pairwise keyLt (k1 :: k2 :: krest2).reverse := by
          rw [List.pairwise_reverse]
          exact hdesc
        have hne : List.Pairwise (fun a b : ParsedOffer × FVal => fBeq a.2 b.2 = false)
            (k1 :: k2 :: krest2) :=
          hdesc.imp (fun h => (fBeq_comm _ _).trans (fBeq_false_of_fBlt h))
        have hne_sl : List.Pairwise (fun a b : ParsedOffer × FVal => fBeq a.2 b.2 = false)
            (List.insertionSort keyRel (k1 :: k2 :: krest2)) :=
          (List.Perm.pairwise_iff (fun h => (fBeq_comm _ _).trans h) hperm).mpr hne
        have hlt_sl : List.Pairwise keyLt
            (List.insertionSort keyRel (k1 :: k2 :: krest2)) :=
          (hslSorted.and hne_sl).imp (fun h => fBlt_of_fBle_ne h.1 h.2)
        have hrevPerm := hperm.trans (List.reverse_perm _).symm
        have heq := List.eq_of_perm_of_sorted hrevPerm hlt_sl hrevSorted
        rw [heq, List.map_reverse, keyedOffers_fst hkeys]

/-- C9 witness: on a singleton list the sort is both the identity and its own
reverse, and the equal-price filter is untouched. -/
theorem C9_witness :
    keyedOffers [offerW] = Except.ok keyedW ∧
    sortStep [offerW] = Except.ok [offerW] ∧
    sortStep [offerW] = Except.ok ([offerW].reverse) ∧
    (List.insertionSort keyRel keyedW).filter
        (fun q => fBeq q.2 (FVal.finite ((7036170730324623 * 2 ^ 1028 : Nat) : Int))) =
      keyedW.filter
        (fun q => fBeq q.2 (FVal.finite ((7036170730324623 * 2 ^ 1028 : Nat) : Int))) := by
  have h := C9_sort_properties [offerW] keyedW rfl
  exact ⟨rfl, h.1 (by simp [keyedW]), h.2.1 (by simp [keyedW]),
    h.2.2 (FVal.finite ((7036170730324623 * 2 ^ 1028 : Nat) : Int))⟩

/-- C8: the outbound params dict carries the returnDate key exactly when the
request carries a (non-empty) return date string; with the GUI round-trip box
disabled the key is entirely absent, and currency, non-stop flag and passenger
count are forwarded verbatim. -/
theorem C8_return_date_iff (origin destination dep : String)
    (adults max_results : Int) (currency : String) (non_stop : Bool)
    (rd : Option String) (hrd : ∀ s, rd = some s → s ≠ "") :
    (∀ s, rd = some s →
      lookupField (build_params origin destination dep adults rd max_results
        currency non_stop) "returnDate" = some (PyVal.pyStr s)) ∧
    (rd = Option.none →
      lookupField (build_params origin destination dep adults rd max_results
        currency non_stop) "returnDate" = Option.none) ∧
    (∀ d, lookupField (build_params origin destination dep adults
        (gui_return_date false d) max_results currency non_stop) "returnDate" =
      Option.none) ∧
    lookupField (build_params origin destination dep adults rd max_results
      currency non_stop) "currencyCode" = some (PyVal.pyStr currency) ∧
    lookupField (build_params origin destination dep adults rd max_results
      currency non_stop) "nonStop" = some (PyVal.pyBool non_stop) ∧
    lookupField (build_params origin destination dep adults rd max_results
      currency non_stop) "adults" = some (PyVal.pyInt adults) := by
  refine ⟨?_, ?_, ?_, ?_, ?_, ?_⟩
  · intro s hs
    subst hs
    have hne : s ≠ "" := hrd s rfl
    simp only [build_params]
    rw [if_neg hne]
    rfl
  · intro hn
    subst hn
    rfl
  · intro d
    rfl
  · cases rd with
    | none => rfl
    | some s =>
      by_cases hs : s = ""
      · simp only [build_params]
        rw [if_pos hs]
        rfl
      · simp only [build_params]
        rw [if_neg hs]
        rfl
  · cases rd with
    | none => rfl
    | some s =>
      by_cases hs : s = ""
      · simp only [build_params]
        rw [if_pos hs]
        rfl
      · simp only [build_params]
        rw [if_neg hs]
        rfl
  · cases rd with
    | none => rfl
    | some s =>
      by_cases hs : s = ""
      · simp only [build_params]
        rw [if_pos hs]
        rfl
      · simp only [build_params]
        rw [if_neg hs]
        rfl

/-- C8 witness: a concrete round trip includes its return date, the disabled
round-trip box omits the key, and the currency passes through. -/
theorem C8_witness :
    lookupField (build_params "NYC" "LAX" "2025-11-01" 1 (some "2025-12-01")
      10 "USD" false) "returnDate" = some (PyVal.pyStr "2025-12-01") ∧
    lookupField (build_params "NYC" "LAX" "2025-11-01" 1
      (gui_return_date false "2025-12-01") 10 "USD" false) "returnDate" =
      Option.none ∧
    lookupField (build_params "NYC" "LAX" "2025-11-01" 1 (some "2025-12-01")
      10 "USD" false) "currencyCode" = some (PyVal.pyStr "USD") := by
  have h := C8_return_date_iff "NYC" "LAX" "2025-11-01" 1 10 "USD" false
    (some "2025-12-01") (fun s hs => by injection hs with h2; rw [← h2]; decide)
  exact ⟨h.1 "2025-12-01" rfl, h.2.2.1 "2025-12-01", h.2.2.2.1⟩

end FlightAggregator